import Mathlib

/-!
Verification of the `fishr` interpreter core (Rust) against its
natural-language specification.  The definitions below are a shallow
embedding of the Rust sources:

* `src/val.rs`   — the tagged value type `Val` with coercions, equality and
                   checked arithmetic;
* `src/stack.rs` — per-stack operations and the stack of stacks;
* `src/fish.rs`  — the interpreter: arithmetic instructions, I/O,
                   self-modifying memory (overlay), IP movement.

Machine integers are modelled as `Nat`/`Int` with explicit range side
conditions (`i64` is `[-2^63, 2^63)`, `usize` is `[0, 2^64)`).  IEEE-754
binary64 floats (`f64`) are modelled by the executable type `F64` below:
`nan`, signed infinities, and finite values `±m·2^e`; arithmetic follows
IEEE-754 round-to-nearest-even, implemented exactly with unbounded
integer arithmetic.
-/

namespace Fishr

/-! ## The binary64 model -/

/-- Model of Rust `f64`: NaN (payloads collapsed, they are never observed
by the interpreter), signed infinity, or a finite value `±m·2^e`
(`neg = true` for the negative sign; `m = 0` encodes a signed zero). -/
inductive F64 where
  | nan : F64
  | inf (neg : Bool) : F64
  | fin (neg : Bool) (m : Nat) (e : Int) : F64
  deriving DecidableEq, Repr

namespace F64

/-- Round `p / q` (`q > 0`) to the nearest integer, ties to even. -/
def rneDiv (p q : Nat) : Nat :=
  let d := p / q
  let r := p % q
  if 2 * r < q then d
  else if 2 * r > q then d + 1
  else if d % 2 = 0 then d else d + 1

/-- Floor of log2, fuel-driven so that it reduces structurally. -/
def log2Fuel : Nat → Nat → Nat
  | 0, _ => 0
  | fuel + 1, n => if n ≥ 2 then log2Fuel fuel (n / 2) + 1 else 0

/-- Floor of `log2 n` for `n > 0`. -/
def nlog2 (n : Nat) : Nat := log2Fuel n n

/-- Does `2^d ≤ p / q` hold (`p, q > 0`)? -/
def le2pow (d : Int) (p q : Nat) : Bool :=
  if d ≥ 0 then q * 2 ^ d.toNat ≤ p else q ≤ p * 2 ^ (-d).toNat

/-- Floor of `log2 (p / q)` for `p, q > 0`. -/
def flog2 (p q : Nat) : Int :=
  let d : Int := (nlog2 p : Int) - (nlog2 q : Int)
  if le2pow (d + 1) p q then d + 1
  else if le2pow d p q then d
  else d - 1

/-- Round the real number `±(p/q)·2^E` (`q > 0`) to the nearest binary64
value, ties to even; overflow gives infinity, total underflow gives a
signed zero. -/
def roundRatio (neg : Bool) (p q : Nat) (E : Int) : F64 :=
  if p = 0 then .fin neg 0 0
  else
    let e : Int := E + flog2 p q
    let g : Int := max (e - 52) (-1074)
    let k : Int := E - g
    let n : Nat :=
      if k ≥ 0 then rneDiv (p * 2 ^ k.toNat) q
      else rneDiv p (q * 2 ^ (-k).toNat)
    if n = 0 then .fin neg 0 0
    else if g ≥ 1024 then .inf neg
    else if n ≥ 2 ^ (1024 - g).toNat then .inf neg
    else .fin neg n g

/-- Negation of a binary64 value (sign flip; `-NaN` stays NaN in this
payload-free model). -/
def neg : F64 → F64
  | nan => nan
  | inf s => inf (!s)
  | fin s m e => fin (!s) m e

/-- Signed integer value of a finite `±m·2^e` scaled into the common
exponent `emin`, i.e. `±m·2^(e-emin)`. -/
def scaledInt (s : Bool) (m : Nat) (e emin : Int) : Int :=
  let v : Int := (m : Int) * 2 ^ (e - emin).toNat
  if s then -v else v

/-- IEEE-754 binary64 addition, round to nearest, ties to even. -/
def add : F64 → F64 → F64
  | nan, _ => nan
  | _, nan => nan
  | inf s1, inf s2 => if s1 = s2 then inf s1 else nan
  | inf s, fin _ _ _ => inf s
  | fin _ _ _, inf s => inf s
  | fin s1 m1 e1, fin s2 m2 e2 =>
    if m1 = 0 && m2 = 0 then fin (s1 && s2) 0 0
    else
      let emin := min e1 e2
      let v : Int := scaledInt s1 m1 e1 emin + scaledInt s2 m2 e2 emin
      if v = 0 then fin false 0 0
      else roundRatio (v < 0) v.natAbs 1 emin

/-- IEEE-754 binary64 subtraction: `a - b = a + (-b)` exactly. -/
def sub (a b : F64) : F64 := add a (neg b)

/-- IEEE-754 binary64 multiplication. -/
def mul : F64 → F64 → F64
  | nan, _ => nan
  | _, nan => nan
  | inf s1, inf s2 => inf (xor s1 s2)
  | inf s1, fin s2 m _ => if m = 0 then nan else inf (xor s1 s2)
  | fin s1 m _, inf s2 => if m = 0 then nan else inf (xor s1 s2)
  | fin s1 m1 e1, fin s2 m2 e2 =>
    if m1 * m2 = 0 then fin (xor s1 s2) 0 0
    else roundRatio (xor s1 s2) (m1 * m2) 1 (e1 + e2)

/-- IEEE-754 binary64 division. -/
def div : F64 → F64 → F64
  | nan, _ => nan
  | _, nan => nan
  | inf _, inf _ => nan
  | inf s1, fin s2 _ _ => inf (xor s1 s2)
  | fin s1 _ _, inf s2 => fin (xor s1 s2) 0 0
  | fin s1 m1 e1, fin s2 m2 e2 =>
    if m2 = 0 then (if m1 = 0 then nan else inf (xor s1 s2))
    else if m1 = 0 then fin (xor s1 s2) 0 0
    else roundRatio (xor s1 s2) m1 m2 (e1 - e2)

/-- Rust `f64::is_infinite`. -/
def isInfinite : F64 → Bool
  | inf _ => true
  | _ => false

/-- Is this float a (positive or negative) zero? -/
def isZero : F64 → Bool
  | fin _ m _ => m = 0
  | _ => false

/-- Is this float finite (neither NaN nor infinite)? -/
def isFinite : F64 → Bool
  | fin _ _ _ => true
  | _ => false

/-- Rust `f64::trunc`: round toward zero to an integral float. -/
def ftrunc : F64 → F64
  | nan => nan
  | inf s => inf s
  | fin s m e => if e ≥ 0 then fin s m e else fin s (m / 2 ^ (-e).toNat) 0

/-- The integer part (truncation toward zero) of a finite `±m·2^e`. -/
def finTruncInt (s : Bool) (m : Nat) (e : Int) : Int :=
  let t : Int := if e ≥ 0 then (m : Int) * 2 ^ e.toNat else (m / 2 ^ (-e).toNat : Nat)
  if s then -t else t

/-- Rust saturating cast `f64 as i64`: NaN to 0, out-of-range values clamp
to `i64::MIN` / `i64::MAX`. -/
def castI64 : F64 → Int
  | nan => 0
  | inf s => if s then -(2 ^ 63) else 2 ^ 63 - 1
  | fin s m e =>
    let t := finTruncInt s m e
    if t < -(2 ^ 63) then -(2 ^ 63) else if t > 2 ^ 63 - 1 then 2 ^ 63 - 1 else t

/-- Rust saturating cast `f64 as u8`: NaN to 0, clamp to `[0, 255]`. -/
def castU8 : F64 → Nat
  | nan => 0
  | inf s => if s then 0 else 255
  | fin s m e =>
    let t := finTruncInt s m e
    if t < 0 then 0 else if t > 255 then 255 else t.toNat

/-- Rust conversion `u8 → f64` (always exact). -/
def ofU8 (b : Nat) : F64 := fin false b 0

/-- Rust cast `i64 as f64` (round to nearest, ties to even). -/
def ofI64 (i : Int) : F64 :=
  if i = 0 then fin false 0 0 else roundRatio (i < 0) i.natAbs 1 0

/-- Rust `f64 == f64`: IEEE equality — NaN compares unequal to everything,
`+0.0 == -0.0`, finite values compare by their real value. -/
def feq : F64 → F64 → Bool
  | nan, _ => false
  | _, nan => false
  | inf s1, inf s2 => s1 = s2
  | inf _, fin _ _ _ => false
  | fin _ _ _, inf _ => false
  | fin s1 m1 e1, fin s2 m2 e2 =>
    let emin := min e1 e2
    scaledInt s1 m1 e1 emin = scaledInt s2 m2 e2 emin

end F64

/-! ## Values (`src/val.rs`) -/

/-- `RuntimeError` from `src/fish.rs`. -/
inductive RuntimeError where
  | InvalidInstruction
  | InvalidIpPosition
  | StackUnderflow
  | IntegerOverflow
  | DivideByZero
  | IOError
  deriving DecidableEq, Repr

/-- `Val` from `src/val.rs`: `Byte(u8)`, `Int(i64)`, `Float(f64)`.
The `u8`/`i64` payloads are `Nat`/`Int`; `ValWF` states their ranges. -/
inductive Val where
  | Byte (b : Nat) : Val
  | Int (i : Int) : Val
  | Float (f : F64) : Val
  deriving DecidableEq, Repr

/-- Range side conditions for the machine-integer payloads of `Val`. -/
def ValWF : Val → Prop
  | .Byte b => b < 256
  | .Int i => -(2 ^ 63) ≤ i ∧ i < 2 ^ 63
  | .Float _ => True

instance : DecidablePred ValWF := fun v => by
  unfold ValWF; cases v <;> infer_instance

/-- Rust `i64::checked_add` (given in-range operands). -/
def checkedAddI64 (a b : ℤ) : Option ℤ :=
  if -(2 ^ 63) ≤ a + b ∧ a + b < 2 ^ 63 then some (a + b) else none

/-- Rust `i64::checked_sub` (given in-range operands). -/
def checkedSubI64 (a b : ℤ) : Option ℤ :=
  if -(2 ^ 63) ≤ a - b ∧ a - b < 2 ^ 63 then some (a - b) else none

/-- Rust `i64::checked_mul` (given in-range operands). -/
def checkedMulI64 (a b : ℤ) : Option ℤ :=
  if -(2 ^ 63) ≤ a * b ∧ a * b < 2 ^ 63 then some (a * b) else none

namespace Val

/-- `Val::to_i64`: Byte zero-extended, Int identity, Float via
`val.trunc() as i64` (saturating cast). -/
def to_i64 : Val → ℤ
  | Byte b => b
  | Int i => i
  | Float f => F64.castI64 (F64.ftrunc f)

/-- `Val::to_u8`: Byte identity, Int via `as u8` (wrap modulo 256),
Float via `val.trunc() as u8` (saturating cast). -/
def to_u8 : Val → Nat
  | Byte b => b
  | Int i => (i % 256).toNat
  | Float f => F64.castU8 (F64.ftrunc f)

/-- `Val::to_f64`: Byte and Int widened (Int with rounding), Float identity. -/
def to_f64 : Val → F64
  | Byte b => F64.ofU8 b
  | Int i => F64.ofI64 i
  | Float f => f

/-- Is the value the `Float` variant? -/
def isFloat : Val → Bool
  | Float _ => true
  | _ => false

/-- `Val::checked_add`: float promotion, else checked `i64` addition. -/
def checked_add : Val → Val → Option Val
  | Float f, v => some (Float (F64.add f v.to_f64))
  | v, Float f => some (Float (F64.add v.to_f64 f))
  | a, b => (checkedAddI64 a.to_i64 b.to_i64).map Val.Int

/-- `Val::checked_sub`: float promotion, else checked `i64` subtraction. -/
def checked_sub : Val → Val → Option Val
  | Float f, v => some (Float (F64.sub f v.to_f64))
  | v, Float f => some (Float (F64.sub v.to_f64 f))
  | a, b => (checkedSubI64 a.to_i64 b.to_i64).map Val.Int

/-- `Val::checked_mul`: float promotion, else checked `i64` multiplication. -/
def checked_mul : Val → Val → Option Val
  | Float f, v => some (Float (F64.mul f v.to_f64))
  | v, Float f => some (Float (F64.mul v.to_f64 f))
  | a, b => (checkedMulI64 a.to_i64 b.to_i64).map Val.Int

/-- `PartialEq for Val` (src/val.rs): Float/Float by IEEE `==`,
Float vs non-Float always false, otherwise compare `to_i64`. -/
def valEq : Val → Val → Bool
  | Float a, Float b => F64.feq a b
  | Float _, _ => false
  | _, Float _ => false
  | a, b => a.to_i64 = b.to_i64

end Val

/-! ## Stacks (`src/stack.rs`)

A `Stack` holds its values in source order: index 0 is the bottom, the
last element is the top of the stack (`Vec::push`/`Vec::pop` act on the
end).  `StackOfStacks` keeps the always-present active stack in `top` and
the remaining stacks, top-down, in `rest` (the Rust `Vec<Stack>` stores
them bottom-up with the active stack last; `top`/`rest` is the same data
with guaranteed non-emptiness, matching the source invariant
`there is always at least one stack`). -/

/-- One value stack with its register (`Stack` in `src/stack.rs`). -/
structure Stack where
  values : List Val
  register : Option Val
  deriving DecidableEq, Repr

/-- The stack of stacks: the active (top) stack plus the stacks below it,
top-down. -/
structure SOS where
  top : Stack
  rest : List Stack
  deriving DecidableEq, Repr

/-- Number of stacks. -/
def SOS.count (s : SOS) : Nat := 1 + s.rest.length

/-- `Vec::pop` on a stack's value list: remove and return the last
element. -/
def popV (l : List Val) : Option (Val × List Val) :=
  match l.getLast? with
  | none => none
  | some v => some (v, l.dropLast)

/-- `StackOfStacks::push_stack(moved_items)`: split the last
`moved_items` values off the top stack into a new top stack with an empty
register; `StackUnderflow` when the top stack is too short
(`len().checked_sub(moved_items)` is `None`).  The error is returned
before anything is mutated, as in the source. -/
def pushStackE (s : SOS) (movedItems : Nat) : Except RuntimeError SOS :=
  let len := s.top.values.length
  if movedItems > len then .error .StackUnderflow
  else
    .ok ⟨⟨s.top.values.drop (len - movedItems), none⟩,
         ⟨s.top.values.take (len - movedItems), s.top.register⟩ :: s.rest⟩

/-- `StackOfStacks::pop_stack`: with more than one stack, remove the top
stack and append its values to the new top (its register is discarded);
with a single stack, clear its values and register. -/
def popStack (s : SOS) : SOS :=
  match s.rest with
  | next :: r => ⟨⟨next.values ++ s.top.values, next.register⟩, r⟩
  | [] => ⟨⟨[], none⟩, []⟩

/-! ## Interpreter operations (`src/fish.rs`)

The arithmetic and I/O instructions only touch the value list of the top
stack, so they are modelled as functions on that list (`Interpreter::pop`
maps a failing `Vec::pop` to `StackUnderflow`). -/

/-- `Interpreter::pop`: pop the top value or fail with `StackUnderflow`. -/
def popE (l : List Val) : Except RuntimeError (Val × List Val) :=
  match popV l with
  | none => .error .StackUnderflow
  | some p => .ok p

/-- The `+` instruction (`Interpreter::add`): pop `x`, pop `y`, push
`y.checked_add(&x)` or fail with `IntegerOverflow`. -/
def addOp (st : List Val) : Except RuntimeError (List Val) :=
  match popE st with
  | .error e => .error e
  | .ok (x, st1) =>
  match popE st1 with
  | .error e => .error e
  | .ok (y, st2) =>
  match Val.checked_add y x with
  | none => .error .IntegerOverflow
  | some res => .ok (st2 ++ [res])

/-- The `-` instruction (`Interpreter::sub`). -/
def subOp (st : List Val) : Except RuntimeError (List Val) :=
  match popE st with
  | .error e => .error e
  | .ok (x, st1) =>
  match popE st1 with
  | .error e => .error e
  | .ok (y, st2) =>
  match Val.checked_sub y x with
  | none => .error .IntegerOverflow
  | some res => .ok (st2 ++ [res])

/-- The `*` instruction (`Interpreter::mul`). -/
def mulOp (st : List Val) : Except RuntimeError (List Val) :=
  match popE st with
  | .error e => .error e
  | .ok (x, st1) =>
  match popE st1 with
  | .error e => .error e
  | .ok (y, st2) =>
  match Val.checked_mul y x with
  | none => .error .IntegerOverflow
  | some res => .ok (st2 ++ [res])

/-- The `,` instruction (`Interpreter::div`): pop `x`, pop `y`, compute
`y.to_f64() / x.to_f64()`; fail with `DivideByZero` when the quotient is
infinite, else push it as a `Float`. -/
def divOp (st : List Val) : Except RuntimeError (List Val) :=
  match popE st with
  | .error e => .error e
  | .ok (x, st1) =>
  match popE st1 with
  | .error e => .error e
  | .ok (y, st2) =>
  let res := F64.div y.to_f64 x.to_f64
  if res.isInfinite then .error .DivideByZero
  else .ok (st2 ++ [Val.Float res])

/-- Does the Rust expression `y % x` panic (`attempt to calculate the
remainder with overflow`)?  For `x ≠ 0` this happens exactly at
`i64::MIN % -1`. -/
def remPanics (y x : ℤ) : Bool := y = -(2 ^ 63) ∧ x = -1

/-- The `%` instruction (`Interpreter::rem`), a partial function:
`none` models a Rust panic.  Pop `x`, pop `y` (as i64); `DivideByZero`
when `x == 0`; otherwise `((y % x) + x) % x` with a checked intermediate
addition (`IntegerOverflow` on overflow).  `Int.tmod` is Rust's `%`
(truncated remainder); the two panic guards mirror the two `%`
expressions in the source. -/
def remOp (st : List Val) : Option (Except RuntimeError (List Val)) :=
  match popE st with
  | .error e => some (.error e)
  | .ok (xv, st1) =>
  match popE st1 with
  | .error e => some (.error e)
  | .ok (yv, st2) =>
  let x := xv.to_i64
  let y := yv.to_i64
  if x = 0 then some (.error .DivideByZero)
  else if remPanics y x then none
  else
    let rem := Int.tmod y x
    match checkedAddI64 rem x with
    | none => some (.error .IntegerOverflow)
    | some s =>
      if remPanics s x then none
      else some (.ok (st2 ++ [Val.Int (Int.tmod s x)]))

/-- UTF-8 encoding of a Unicode scalar value, as produced by formatting a
Rust `char` with `write!("{}", c)`. -/
def utf8Scalar (n : Nat) : List Nat :=
  if n < 0x80 then [n]
  else if n < 0x800 then [0xC0 + n / 64, 0x80 + n % 64]
  else if n < 0x10000 then [0xE0 + n / 4096, 0x80 + n / 64 % 64, 0x80 + n % 64]
  else [0xF0 + n / 262144, 0x80 + n / 4096 % 64, 0x80 + n / 64 % 64, 0x80 + n % 64]

/-- The `o` instruction (`Interpreter::char_output`): pop a value, convert
with `to_u8() as char`, and write that char with `write!("{}", _)`, which
emits its UTF-8 encoding.  Returns the remaining stack and the emitted
bytes (the output sink is assumed to accept the write; a failing write
would yield `IOError`). -/
def charOutput (st : List Val) : Except RuntimeError (List Val × List Nat) :=
  match popE st with
  | .error e => .error e
  | .ok (v, st1) => .ok (st1, utf8Scalar v.to_u8)

/-! ## Grid, overlay and movement (`src/fish.rs`) -/

/-- `CodeBox`: the program grid.  `data` holds the byte rows; `width` is
the maximum row length and `height` the row count. -/
structure CodeBox where
  data : List (List Nat)
  height : Nat
  width : Nat
  deriving Repr

/-- `CodeBox::get`: `None` outside `[0,width) × [0,height)`; inside,
bytes past the end of a short row read as space (0x20). -/
def CodeBox.get (cb : CodeBox) (x y : Nat) : Option Nat :=
  if x < cb.width ∧ y < cb.height then
    (cb.data.get? y).map (fun line => (line.get? x).getD 32)
  else none

/-- `usize::MAX` (the interpreter targets a 64-bit platform). -/
def USIZE_MAX : Nat := 2 ^ 64 - 1

/-- Rust `usize::checked_add`. -/
def usizeCheckedAdd (a b : Nat) : Option Nat :=
  if a + b ≤ USIZE_MAX then some (a + b) else none

/-- Rust `usize::checked_sub`. -/
def usizeCheckedSub (a b : Nat) : Option Nat :=
  if b ≤ a then some (a - b) else none

/-- `Direction` from `src/fish.rs`. -/
inductive Direction where
  | Right | Left | Up | Down
  deriving DecidableEq, Repr

/-- The instruction pointer `(chr, line)`. -/
structure IP where
  chr : Nat
  line : Nat
  deriving DecidableEq, Repr

/-- `Interpreter::advance`: move the IP one step in the current direction
(`checked_add(1).unwrap_or(0)` / `checked_sub(1).unwrap_or(dim - 1)`),
then normalize `chr`/`line` to 0 when they reach the grid dimension. -/
def advance (dir : Direction) (ip : IP) (width height : Nat) : IP :=
  let ip1 :=
    match dir with
    | .Right => { ip with chr := (usizeCheckedAdd ip.chr 1).getD 0 }
    | .Left => { ip with chr := (usizeCheckedSub ip.chr 1).getD (width - 1) }
    | .Up => { ip with line := (usizeCheckedSub ip.line 1).getD (height - 1) }
    | .Down => { ip with line := (usizeCheckedAdd ip.line 1).getD 0 }
  let ip2 := if ip1.chr ≥ width then { ip1 with chr := 0 } else ip1
  if ip2.line ≥ height then { ip2 with line := 0 } else ip2

/-- Rust cast `i64 as usize` (two's-complement wrap into `[0, 2^64)`). -/
def i64AsUsize (i : ℤ) : Nat := (i % (2 ^ 64)).toNat

/-- The overlay `memory: HashMap<MemPos, Val>`, modelled as an
association list on `(x, y)` with at most one binding per key. -/
def Overlay : Type := List ((ℤ × ℤ) × Val)

/-- `HashMap::get` on the overlay. -/
def Overlay.find (m : Overlay) (k : ℤ × ℤ) : Option Val :=
  match m.find? (fun p => p.1 = k) with
  | some p => some p.2
  | none => none

/-- `HashMap::insert` on the overlay: replace the binding when the key is
present, otherwise add one. -/
def Overlay.insert (m : Overlay) (k : ℤ × ℤ) (v : Val) : Overlay :=
  match m with
  | [] => [(k, v)]
  | p :: rest => if p.1 = k then (k, v) :: rest else p :: Overlay.insert rest k v

/-- `Interpreter::get_memory`: when the overlay is dirty and contains
`(x, y)`, its value; otherwise the grid byte at
`(x as usize, y as usize)`, with absent cells and spaces read as
`Byte(0)`. -/
def getMemory (cb : CodeBox) (mem : Overlay) (dirty : Bool) (x y : ℤ) : Val :=
  match (if dirty then Overlay.find mem (x, y) else none) with
  | some v => v
  | none =>
    match cb.get (i64AsUsize x) (i64AsUsize y) with
    | some 32 => Val.Byte 0
    | none => Val.Byte 0
    | some b => Val.Byte b

/-- `Interpreter::write_memory` (the `p` instruction): pop `y`, pop `x`,
pop `v`; read the current cell exactly as `g` does; when `v != current`
(per `PartialEq for Val`), insert `(x, y) ↦ v` into the overlay and set
the dirty flag, else change nothing.  Returns the new overlay, dirty flag
and remaining top-stack values. -/
def writeMemory (cb : CodeBox) (mem : Overlay) (dirty : Bool) (st : List Val) :
    Except RuntimeError (Overlay × Bool × List Val) :=
  match popE st with
  | .error e => .error e
  | .ok (yv, st1) =>
  match popE st1 with
  | .error e => .error e
  | .ok (xv, st2) =>
  match popE st2 with
  | .error e => .error e
  | .ok (v, st3) =>
  let x := xv.to_i64
  let y := yv.to_i64
  let val := getMemory cb mem dirty x y
  if Val.valEq v val then .ok (mem, dirty, st3)
  else .ok (Overlay.insert mem (x, y) v, true, st3)

/-- Pop the top value of the active stack of a stack-of-stacks. -/
def popTop (s : SOS) : Option (Val × SOS) :=
  match popV s.top.values with
  | none => none
  | some (v, vs) => some (v, ⟨⟨vs, s.top.register⟩, s.rest⟩)

/-- The `[` instruction (in `Interpreter::execute_instruction`): pop `v`,
then `push_stack(v.to_i64() as usize)`, mapping its error to
`StackUnderflow`.  The final stack-of-stacks is returned alongside the
status so that the state after a failure is visible (the pop has already
happened; `push_stack` checks before mutating). -/
def instrBracket (s : SOS) : Except RuntimeError Unit × SOS :=
  match popTop s with
  | none => (.error .StackUnderflow, s)
  | some (v, s1) =>
    match pushStackE s1 (i64AsUsize v.to_i64) with
    | .ok s2 => (.ok (), s2)
    | .error _ => (.error .StackUnderflow, s1)

/-! ## Helper lemmas -/

theorem popV_concat (vs : List Val) (v : Val) : popV (vs ++ [v]) = some (v, vs) := by
  simp [popV, List.getLast?_concat, List.dropLast_concat]

theorem popE_concat (vs : List Val) (v : Val) : popE (vs ++ [v]) = .ok (v, vs) := by
  simp [popE, popV_concat]

theorem concat_two (vs : List Val) (a b : Val) :
    vs ++ [a, b] = (vs ++ [a]) ++ [b] := by simp

theorem concat_three (vs : List Val) (a b c : Val) :
    vs ++ [a, b, c] = ((vs ++ [a]) ++ [b]) ++ [c] := by simp

theorem Overlay.find_insert (m : Overlay) (k : ℤ × ℤ) (v : Val) :
    Overlay.find (Overlay.insert m k v) k = some v := by
  induction m with
  | nil => simp [Overlay.insert, Overlay.find, List.find?]
  | cons p rest ih =>
    by_cases h : p.1 = k
    · simp [Overlay.insert, Overlay.find, h, List.find?]
    · simpa [Overlay.insert, Overlay.find, h, List.find?] using ih

/-! ## Claim theorems -/

/-- Claim C5: `push_stack(n)` on a stack-of-stacks whose top stack `T` has
`L` values and register `r` fails with `StackUnderflow` when `n > L`, and
otherwise moves exactly the last `n` values of `T`, in order, into a new
top stack with an empty register, while `T` keeps its first `L - n` values
and its register. -/
theorem push_stack_spec (t : Stack) (rest : List Stack) (n : Nat) :
    (n > t.values.length → pushStackE ⟨t, rest⟩ n = .error .StackUnderflow) ∧
    (n ≤ t.values.length →
      pushStackE ⟨t, rest⟩ n =
        .ok ⟨⟨t.values.drop (t.values.length - n), none⟩,
             ⟨t.values.take (t.values.length - n), t.register⟩ :: rest⟩ ∧
      (t.values.drop (t.values.length - n)).length = n ∧
      t.values.take (t.values.length - n) ++ t.values.drop (t.values.length - n)
        = t.values) := by
  constructor
  · intro h
    simp [pushStackE, h]
  · intro h
    refine ⟨?_, ?_, List.take_append_drop _ _⟩
    · simp [pushStackE, Nat.not_lt.mpr h]
    · simp [List.length_drop, Nat.sub_sub_self h]

/-- Witness for C5: moving 2 of 3 values, and underflow when asking for 2
of 1. -/
theorem push_stack_spec_witness :
    pushStackE ⟨⟨[Val.Byte 5, Val.Int 42, Val.Byte 7], none⟩, []⟩ 2 =
      .ok ⟨⟨[Val.Int 42, Val.Byte 7], none⟩, [⟨[Val.Byte 5], none⟩]⟩ ∧
    pushStackE ⟨⟨[Val.Byte 5], some (Val.Byte 1)⟩, []⟩ 2 = .error .StackUnderflow := by
  constructor
  · exact ((push_stack_spec ⟨[Val.Byte 5, Val.Int 42, Val.Byte 7], none⟩ [] 2).2
      (by decide)).1
  · exact (push_stack_spec ⟨[Val.Byte 5], some (Val.Byte 1)⟩ [] 2).1 (by decide)

/-- Claim C6: `pop_stack` with more than one stack removes the top stack
and appends its values, in order, to the new top stack, discarding the
popped register and keeping the new top's register; with only the initial
stack it clears values and register instead of failing; the stack count
stays at least 1. -/
theorem pop_stack_spec (s : SOS) :
    (s.rest = [] → popStack s = ⟨⟨[], none⟩, []⟩) ∧
    (∀ next r, s.rest = next :: r →
      popStack s = ⟨⟨next.values ++ s.top.values, next.register⟩, r⟩) ∧
    1 ≤ (popStack s).count := by
  refine ⟨fun h => ?_, fun next r h => ?_, ?_⟩
  · simp [popStack, h]
  · simp [popStack, h]
  · cases h : s.rest with
    | nil => simp [popStack, h, SOS.count]
    | cons next r => simp [popStack, h, SOS.count]

/-- Witness for C6: popping onto a parent stack, and clearing the single
initial stack. -/
theorem pop_stack_spec_witness :
    popStack ⟨⟨[Val.Int 42], none⟩, [⟨[Val.Byte 5], some (Val.Byte 9)⟩]⟩ =
      ⟨⟨[Val.Byte 5, Val.Int 42], some (Val.Byte 9)⟩, []⟩ ∧
    popStack ⟨⟨[Val.Byte 5], some (Val.Byte 9)⟩, []⟩ = ⟨⟨[], none⟩, []⟩ := by
  constructor
  · exact (pop_stack_spec ⟨⟨[Val.Int 42], none⟩,
      [⟨[Val.Byte 5], some (Val.Byte 9)⟩]⟩).2.1 _ _ rfl
  · exact (pop_stack_spec ⟨⟨[Val.Byte 5], some (Val.Byte 9)⟩, []⟩).1 rfl

theorem popE_concat2 (vs : List Val) (y x : Val) :
    popE (vs ++ [y, x]) = .ok (x, vs ++ [y]) := by
  rw [concat_two]; exact popE_concat (vs ++ [y]) x

theorem addOp_concat (vs : List Val) (y x : Val) :
    addOp (vs ++ [y, x]) =
      match Val.checked_add y x with
      | none => .error .IntegerOverflow
      | some res => .ok (vs ++ [res]) := by
  simp only [addOp, popE_concat2, popE_concat]

theorem subOp_concat (vs : List Val) (y x : Val) :
    subOp (vs ++ [y, x]) =
      match Val.checked_sub y x with
      | none => .error .IntegerOverflow
      | some res => .ok (vs ++ [res]) := by
  simp only [subOp, popE_concat2, popE_concat]

theorem mulOp_concat (vs : List Val) (y x : Val) :
    mulOp (vs ++ [y, x]) =
      match Val.checked_mul y x with
      | none => .error .IntegerOverflow
      | some res => .ok (vs ++ [res]) := by
  simp only [mulOp, popE_concat2, popE_concat]

theorem divOp_concat (vs : List Val) (y x : Val) :
    divOp (vs ++ [y, x]) =
      (if (F64.div y.to_f64 x.to_f64).isInfinite then .error .DivideByZero
       else .ok (vs ++ [Val.Float (F64.div y.to_f64 x.to_f64)])) := by
  simp only [divOp, popE_concat2, popE_concat]

/-- Claim C1, amended: the `o` instruction pops `v` and emits the UTF-8
encoding of the Unicode code point `to_u8(v)`: a single byte equal to
`to_u8(v)` when `to_u8(v) < 128`, and the two bytes
`[0xC0 + to_u8(v)/64, 0x80 + to_u8(v)%64]` when `128 ≤ to_u8(v) < 256`. -/
theorem char_output_utf8 (vs : List Val) (v : Val) :
    charOutput (vs ++ [v]) = .ok (vs, utf8Scalar v.to_u8) ∧
    (v.to_u8 < 128 → utf8Scalar v.to_u8 = [v.to_u8]) ∧
    (128 ≤ v.to_u8 → v.to_u8 < 256 →
      utf8Scalar v.to_u8 = [192 + v.to_u8 / 64, 128 + v.to_u8 % 64] ∧
      (utf8Scalar v.to_u8).length = 2) := by
  refine ⟨?_, fun h => ?_, fun h1 h2 => ?_⟩
  · simp only [charOutput, popE_concat]
  · simp [utf8Scalar, h]
  · have hlo : ¬ v.to_u8 < 128 := by omega
    have hhi : v.to_u8 < 2048 := by omega
    simp [utf8Scalar, hlo, hhi]

/-- Witness for C1 (amended): `o` on `Byte(233)` emits the two bytes
0xC3 0xA9 (UTF-8 for U+00E9). -/
theorem char_output_utf8_witness :
    charOutput [Val.Byte 233] = .ok ([], utf8Scalar (Val.to_u8 (Val.Byte 233))) ∧
    utf8Scalar (Val.to_u8 (Val.Byte 233)) = [195, 169] := by
  constructor
  · exact (char_output_utf8 [] (Val.Byte 233)).1
  · exact ((char_output_utf8 [] (Val.Byte 233)).2.2 (by decide) (by decide)).1

/-- Counterexample to claim C1 as stated: popping `Byte(200)` emits the
two bytes 0xC3 0x88, not the single byte 200 (`to_u8` of the popped
value). -/
theorem char_output_high_byte_cex :
    charOutput [Val.Byte 200] = .ok ([], [195, 136]) ∧
    ([195, 136] : List Nat) ≠ [Val.to_u8 (Val.Byte 200)] ∧
    ([195, 136] : List Nat).length ≠ 1 := by
  refine ⟨rfl, by decide, by decide⟩

/-- Claim C2, amended: `,` pops `x` then `y` and computes the IEEE
binary64 quotient `q = y_f64 / x_f64`; it fails with `DivideByZero`
exactly when `q` is infinite, and otherwise pushes `Float(q)`.  Division
of a finite non-zero dividend by (exact) zero always gives an infinite
quotient and hence fails; `0/0` gives NaN and does not fail. -/
theorem div_spec (vs : List Val) (x y : Val) :
    divOp (vs ++ [y, x]) =
      (if (F64.div y.to_f64 x.to_f64).isInfinite then .error .DivideByZero
       else .ok (vs ++ [Val.Float (F64.div y.to_f64 x.to_f64)])) ∧
    ((x.to_f64).isZero = true → (y.to_f64).isFinite = true →
      (y.to_f64).isZero = false →
      (F64.div y.to_f64 x.to_f64).isInfinite = true) := by
  refine ⟨divOp_concat vs y x, fun hx hy hynz => ?_⟩
  rcases hfx : x.to_f64 with _ | s | ⟨s, m, e⟩ <;> rw [hfx] at hx <;>
    simp [F64.isZero] at hx
  rcases hfy : y.to_f64 with _ | s' | ⟨s', m', e'⟩ <;> rw [hfy] at hy hynz <;>
    simp [F64.isFinite] at hy <;> simp [F64.isZero] at hynz
  simp [F64.div, hx, hynz, F64.isInfinite]

/-- Witness for C2 (amended): dividing `Byte(1)` by `Byte(0)` gives an
infinite quotient, so the `,` instruction fails with `DivideByZero`. -/
theorem div_spec_witness :
    (F64.div (Val.to_f64 (Val.Byte 1)) (Val.to_f64 (Val.Byte 0))).isInfinite = true ∧
    divOp [Val.Byte 1, Val.Byte 0] = .error .DivideByZero := by
  have h := div_spec [] (Val.Byte 0) (Val.Byte 1)
  have hinf := h.2 (by decide) (by decide) (by decide)
  exact ⟨hinf, by rw [show ([Val.Byte 1, Val.Byte 0] : List Val)
    = [] ++ [Val.Byte 1, Val.Byte 0] from rfl, h.1, if_pos hinf]⟩

/-- Counterexample to claim C2 as stated: `Byte(0) / Byte(0)` is a
division by zero, yet it does not fail with `DivideByZero`: the IEEE
quotient is NaN (not infinite) and `Float(NaN)` is pushed. -/
theorem div_zero_by_zero_cex :
    divOp [Val.Byte 0, Val.Byte 0] = .ok [Val.Float F64.nan] ∧
    divOp [Val.Byte 0, Val.Byte 0] ≠ .error RuntimeError.DivideByZero := by
  have h : divOp [Val.Byte 0, Val.Byte 0] = .ok [Val.Float F64.nan] := rfl
  exact ⟨h, fun hc => Except.noConfusion (h.symm.trans hc)⟩

/-- Claim C9: when both popped values coerce to (exact) f64 zero, the
quotient is NaN, which is not infinite, so `,` raises no error:
`Float(NaN)` is pushed and execution continues. -/
theorem div_nan_spec (vs : List Val) (x y : Val)
    (hx : (x.to_f64).isZero = true) (hy : (y.to_f64).isZero = true) :
    F64.div y.to_f64 x.to_f64 = F64.nan ∧
    (F64.div y.to_f64 x.to_f64).isInfinite = false ∧
    divOp (vs ++ [y, x]) = .ok (vs ++ [Val.Float F64.nan]) := by
  rcases hfx : x.to_f64 with _ | s | ⟨s, m, e⟩ <;> rw [hfx] at hx <;>
    simp [F64.isZero] at hx
  rcases hfy : y.to_f64 with _ | s' | ⟨s', m', e'⟩ <;> rw [hfy] at hy <;>
    simp [F64.isZero] at hy
  subst hx
  subst hy
  refine ⟨by simp [F64.div], by simp [F64.div, F64.isInfinite], ?_⟩
  rw [divOp_concat, hfx, hfy]
  simp [F64.div, F64.isInfinite]

/-- Witness for C9: `Byte(0) / Byte(0)` pushes `Float(NaN)`. -/
theorem div_nan_spec_witness :
    divOp ([Val.Int 7] ++ [Val.Byte 0, Val.Byte 0]) =
      .ok ([Val.Int 7] ++ [Val.Float F64.nan]) :=
  (div_nan_spec [Val.Int 7] (Val.Byte 0) (Val.Byte 0) (by decide) (by decide)).2.2

theorem popE_concat3 (vs : List Val) (a b c : Val) :
    popE (vs ++ [a, b, c]) = .ok (c, vs ++ [a, b]) := by
  rw [concat_three, popE_concat]
  simp

theorem checked_add_int (y x : Val) (hy : y.isFloat = false) (hx : x.isFloat = false) :
    Val.checked_add y x = (checkedAddI64 y.to_i64 x.to_i64).map Val.Int := by
  cases y <;> cases x <;> simp_all [Val.isFloat, Val.checked_add]

theorem checked_sub_int (y x : Val) (hy : y.isFloat = false) (hx : x.isFloat = false) :
    Val.checked_sub y x = (checkedSubI64 y.to_i64 x.to_i64).map Val.Int := by
  cases y <;> cases x <;> simp_all [Val.isFloat, Val.checked_sub]

theorem checked_mul_int (y x : Val) (hy : y.isFloat = false) (hx : x.isFloat = false) :
    Val.checked_mul y x = (checkedMulI64 y.to_i64 x.to_i64).map Val.Int := by
  cases y <;> cases x <;> simp_all [Val.isFloat, Val.checked_mul]

theorem checked_add_float (y x : Val) (h : y.isFloat = true ∨ x.isFloat = true) :
    Val.checked_add y x = some (Val.Float (F64.add y.to_f64 x.to_f64)) := by
  cases y <;> cases x <;> simp_all [Val.isFloat, Val.checked_add, Val.to_f64]

theorem checked_sub_float (y x : Val) (h : y.isFloat = true ∨ x.isFloat = true) :
    Val.checked_sub y x = some (Val.Float (F64.sub y.to_f64 x.to_f64)) := by
  cases y <;> cases x <;> simp_all [Val.isFloat, Val.checked_sub, Val.to_f64]

theorem checked_mul_float (y x : Val) (h : y.isFloat = true ∨ x.isFloat = true) :
    Val.checked_mul y x = some (Val.Float (F64.mul y.to_f64 x.to_f64)) := by
  cases y <;> cases x <;> simp_all [Val.isFloat, Val.checked_mul, Val.to_f64]

/-- Claim C4: for `+`, `-`, `*` — when either operand is a `Float`, the
result is `Float` of the IEEE binary64 operation on both operands coerced
to f64 and the instruction never fails; when neither is (`Byte`/`Int` in
any combination, never widened to `Float`), both operands are coerced to
i64 and the checked signed operation yields `Int` on success and
`IntegerOverflow` exactly when the result leaves the i64 range. -/
theorem checked_arith_spec (x y : Val) (vs : List Val)
    (hwx : ValWF x) (hwy : ValWF y) :
    (y.isFloat = true ∨ x.isFloat = true →
      Val.checked_add y x = some (Val.Float (F64.add y.to_f64 x.to_f64)) ∧
      Val.checked_sub y x = some (Val.Float (F64.sub y.to_f64 x.to_f64)) ∧
      Val.checked_mul y x = some (Val.Float (F64.mul y.to_f64 x.to_f64)) ∧
      addOp (vs ++ [y, x]) = .ok (vs ++ [Val.Float (F64.add y.to_f64 x.to_f64)]) ∧
      subOp (vs ++ [y, x]) = .ok (vs ++ [Val.Float (F64.sub y.to_f64 x.to_f64)]) ∧
      mulOp (vs ++ [y, x]) = .ok (vs ++ [Val.Float (F64.mul y.to_f64 x.to_f64)])) ∧
    (y.isFloat = false → x.isFloat = false →
      addOp (vs ++ [y, x]) =
        (if -(2 ^ 63) ≤ y.to_i64 + x.to_i64 ∧ y.to_i64 + x.to_i64 < 2 ^ 63
         then .ok (vs ++ [Val.Int (y.to_i64 + x.to_i64)])
         else .error .IntegerOverflow) ∧
      subOp (vs ++ [y, x]) =
        (if -(2 ^ 63) ≤ y.to_i64 - x.to_i64 ∧ y.to_i64 - x.to_i64 < 2 ^ 63
         then .ok (vs ++ [Val.Int (y.to_i64 - x.to_i64)])
         else .error .IntegerOverflow) ∧
      mulOp (vs ++ [y, x]) =
        (if -(2 ^ 63) ≤ y.to_i64 * x.to_i64 ∧ y.to_i64 * x.to_i64 < 2 ^ 63
         then .ok (vs ++ [Val.Int (y.to_i64 * x.to_i64)])
         else .error .IntegerOverflow)) := by
  constructor
  · intro hf
    have ha := checked_add_float y x hf
    have hs := checked_sub_float y x hf
    have hm := checked_mul_float y x hf
    refine ⟨ha, hs, hm, ?_, ?_, ?_⟩
    · rw [addOp_concat, ha]
    · rw [subOp_concat, hs]
    · rw [mulOp_concat, hm]
  · intro hy hx
    refine ⟨?_, ?_, ?_⟩
    · rw [addOp_concat, checked_add_int y x hy hx, checkedAddI64]
      split_ifs <;> rfl
    · rw [subOp_concat, checked_sub_int y x hy hx, checkedSubI64]
      split_ifs <;> rfl
    · rw [mulOp_concat, checked_mul_int y x hy hx, checkedMulI64]
      split_ifs <;> rfl

/-- Witness for C4: `Byte(6) + Byte(7)` stays on the integer path and
pushes `Int(13)`; `Float(2.0) * Int(3)` takes the float path. -/
theorem checked_arith_spec_witness :
    addOp [Val.Byte 6, Val.Byte 7] = .ok [Val.Int 13] ∧
    mulOp [Val.Float (F64.fin false 2 0), Val.Int 3] =
      .ok [Val.Float (F64.mul (F64.fin false 2 0) (Val.to_f64 (Val.Int 3)))] := by
  constructor
  · have h := ((checked_arith_spec (Val.Byte 7) (Val.Byte 6) []
      (by decide) (by decide)).2 rfl rfl).1
    rw [show ([Val.Byte 6, Val.Byte 7] : List Val)
      = [] ++ [Val.Byte 6, Val.Byte 7] from rfl, h]
    norm_num [Val.to_i64]
  · have h := ((checked_arith_spec (Val.Int 3) (Val.Float (F64.fin false 2 0)) []
      (by decide) (by decide)).1 (Or.inl rfl)).2.2.2.2.2
    rw [show ([Val.Float (F64.fin false 2 0), Val.Int 3] : List Val)
      = [] ++ [Val.Float (F64.fin false 2 0), Val.Int 3] from rfl, h]
    rfl

/-- Claim C3 (the code-bug evidence): at `y = i64::MIN`, `x = -1` the `%`
instruction panics — the Rust expression `y % x` overflows — instead of
pushing `Int(((y % x) + x) % x) = Int(0)` as the specification requires
(`remOp` returns `none`, the model of a panic, although the claimed
result of the floored-modulo formula is representable). -/
theorem rem_min_panic :
    remOp [Val.Int (-(2 ^ 63)), Val.Int (-1)] = none ∧
    Int.tmod (Int.tmod (-(2 ^ 63)) (-1) + (-1)) (-1) = 0 := by
  exact ⟨rfl, by decide⟩

/-- Claim C7: `p` pops `y`, `x`, `v` and reads the current cell exactly as
`g` does; when `v` equals the current value (per `PartialEq for Val`) the
overlay and the dirty flag are left completely unchanged, and when it does
not, the overlay afterwards maps `(x, y)` to `v` and the dirty flag is
set. -/
theorem write_memory_spec (cb : CodeBox) (mem : Overlay) (dirty : Bool)
    (vs : List Val) (v xv yv : Val) :
    (Val.valEq v (getMemory cb mem dirty xv.to_i64 yv.to_i64) = true →
      writeMemory cb mem dirty (vs ++ [v, xv, yv]) = .ok (mem, dirty, vs)) ∧
    (Val.valEq v (getMemory cb mem dirty xv.to_i64 yv.to_i64) = false →
      writeMemory cb mem dirty (vs ++ [v, xv, yv]) =
        .ok (Overlay.insert mem (xv.to_i64, yv.to_i64) v, true, vs) ∧
      Overlay.find (Overlay.insert mem (xv.to_i64, yv.to_i64) v)
        (xv.to_i64, yv.to_i64) = some v) := by
  constructor
  · intro h
    simp only [writeMemory, popE_concat3, popE_concat2, popE_concat]
    rw [if_pos h]
  · intro h
    refine ⟨?_, Overlay.find_insert mem (xv.to_i64, yv.to_i64) v⟩
    simp only [writeMemory, popE_concat3, popE_concat2, popE_concat]
    rw [if_neg (by rw [h]; exact Bool.false_ne_true)]

/-- Witness for C7: writing `Byte(104)` over a cell that already reads as
`Byte(104)` leaves overlay and dirty flag untouched; writing `Byte(0)`
there inserts a binding and sets the dirty flag. -/
theorem write_memory_spec_witness :
    writeMemory ⟨[[104]], 1, 1⟩ [] false [Val.Byte 104, Val.Byte 0, Val.Byte 0] =
      .ok ([], false, []) ∧
    writeMemory ⟨[[104]], 1, 1⟩ [] false [Val.Byte 0, Val.Byte 0, Val.Byte 0] =
      .ok ([((0, 0), Val.Byte 0)], true, []) := by
  constructor
  · exact (write_memory_spec ⟨[[104]], 1, 1⟩ [] false []
      (Val.Byte 104) (Val.Byte 0) (Val.Byte 0)).1 (by decide)
  · exact ((write_memory_spec ⟨[[104]], 1, 1⟩ [] false []
      (Val.Byte 0) (Val.Byte 0) (Val.Byte 0)).2 (by decide)).1

/-- Claim C8: on a non-empty grid, `advance` moves an in-bounds IP exactly
one modular step in the current direction (right/down wrap past the edge
to 0, left/up wrap from 0 to `width-1`/`height-1`) and the result is again
inside `[0, width) × [0, height)`. -/
theorem advance_spec (dir : Direction) (ip : IP) (width height : Nat)
    (hw : 0 < width) (hh : 0 < height) (hwm : width ≤ USIZE_MAX)
    (hhm : height ≤ USIZE_MAX) (hc : ip.chr < width) (hl : ip.line < height) :
    advance dir ip width height =
      (match dir with
       | .Right => ⟨(ip.chr + 1) % width, ip.line⟩
       | .Left => ⟨if ip.chr = 0 then width - 1 else ip.chr - 1, ip.line⟩
       | .Up => ⟨ip.chr, if ip.line = 0 then height - 1 else ip.line - 1⟩
       | .Down => ⟨ip.chr, (ip.line + 1) % height⟩) ∧
    (advance dir ip width height).chr < width ∧
    (advance dir ip width height).line < height := by
  have hmain : advance dir ip width height =
      (match dir with
       | .Right => ⟨(ip.chr + 1) % width, ip.line⟩
       | .Left => ⟨if ip.chr = 0 then width - 1 else ip.chr - 1, ip.line⟩
       | .Up => ⟨ip.chr, if ip.line = 0 then height - 1 else ip.line - 1⟩
       | .Down => ⟨ip.chr, (ip.line + 1) % height⟩) := by
    cases dir
    case Right =>
      have h1 : usizeCheckedAdd ip.chr 1 = some (ip.chr + 1) := by
        rw [usizeCheckedAdd, if_pos (by omega)]
      simp only [advance, h1, Option.getD]
      by_cases h2 : ip.chr + 1 ≥ width
      · have he : ip.chr + 1 = width := by omega
        simp [h2, hl, Nat.not_lt.mpr (le_of_lt hl), he, Nat.mod_self]
      · simp [h2, Nat.mod_eq_of_lt (by omega : ip.chr + 1 < width)]
        all_goals omega
    case Left =>
      by_cases h0 : ip.chr = 0
      · have h1 : usizeCheckedSub ip.chr 1 = none := by
          rw [usizeCheckedSub, if_neg (by omega)]
        simp only [advance, h1, Option.getD]
        simp [h0, Nat.not_le.mpr (Nat.sub_lt hw Nat.one_pos)]
        all_goals omega
      · have h1 : usizeCheckedSub ip.chr 1 = some (ip.chr - 1) := by
          rw [usizeCheckedSub, if_pos (by omega)]
        simp only [advance, h1, Option.getD]
        simp [h0, Nat.not_le.mpr (by omega : ip.chr - 1 < width)]
        all_goals omega
    case Up =>
      by_cases h0 : ip.line = 0
      · have h1 : usizeCheckedSub ip.line 1 = none := by
          rw [usizeCheckedSub, if_neg (by omega)]
        simp only [advance, h1, Option.getD]
        simp [h0, Nat.not_le.mpr hc, Nat.not_le.mpr (Nat.sub_lt hh Nat.one_pos)]
      · have h1 : usizeCheckedSub ip.line 1 = some (ip.line - 1) := by
          rw [usizeCheckedSub, if_pos (by omega)]
        simp only [advance, h1, Option.getD]
        simp [h0, Nat.not_le.mpr hc, Nat.not_le.mpr (by omega : ip.line - 1 < height)]
    case Down =>
      have h1 : usizeCheckedAdd ip.line 1 = some (ip.line + 1) := by
        rw [usizeCheckedAdd, if_pos (by omega)]
      simp only [advance, h1, Option.getD]
      by_cases h2 : ip.line + 1 ≥ height
      · have he : ip.line + 1 = height := by omega
        simp [h2, Nat.not_le.mpr hc, he, Nat.mod_self]
      · simp [h2, Nat.not_le.mpr hc,
          Nat.mod_eq_of_lt (by omega : ip.line + 1 < height)]
  refine ⟨hmain, ?_, ?_⟩ <;> rw [hmain] <;> cases dir
  · exact Nat.mod_lt _ hw
  · by_cases h0 : ip.chr = 0 <;> simp [h0] <;> omega
  · exact hc
  · exact hc
  · exact hl
  · exact hl
  · by_cases h0 : ip.line = 0 <;> simp [h0] <;> omega
  · exact Nat.mod_lt _ hh

/-- Witness for C8: from `(2, 0)` moving right on a 3×1 grid the IP wraps
to `(0, 0)`; moving left from `(0, 0)` wraps to `(2, 0)`. -/
theorem advance_spec_witness :
    advance .Right ⟨2, 0⟩ 3 1 = ⟨0, 0⟩ ∧ advance .Left ⟨0, 0⟩ 3 1 = ⟨2, 0⟩ := by
  constructor
  · exact (advance_spec .Right ⟨2, 0⟩ 3 1 (by decide) (by decide)
      (by norm_num [USIZE_MAX]) (by norm_num [USIZE_MAX]) (by decide) (by decide)).1
  · exact (advance_spec .Left ⟨0, 0⟩ 3 1 (by decide) (by decide)
      (by norm_num [USIZE_MAX]) (by norm_num [USIZE_MAX]) (by decide) (by decide)).1

/-- Claim C10: when `[` pops a value with a negative i64 coercion, the
cast to usize wraps to at least `2^63`, which exceeds any possible Rust
stack length, so the instruction fails with `StackUnderflow` and the top
stack keeps its remaining values (and register) unchanged. -/
theorem bracket_negative_spec (vs : List Val) (v : Val) (r : Option Val)
    (rest : List Stack) (hneg : v.to_i64 < 0) (hlo : -(2 ^ 63) ≤ v.to_i64)
    (hlen : vs.length < 2 ^ 63) :
    instrBracket ⟨⟨vs ++ [v], r⟩, rest⟩ = (.error .StackUnderflow, ⟨⟨vs, r⟩, rest⟩) ∧
    2 ^ 63 ≤ i64AsUsize v.to_i64 := by
  have e64 : ((2 : ℤ) ^ 64) = 18446744073709551616 := by norm_num
  have e63 : ((2 : ℤ) ^ 63) = 9223372036854775808 := by norm_num
  have n63 : ((2 : ℕ) ^ 63) = 9223372036854775808 := by norm_num
  have hbig : 2 ^ 63 ≤ i64AsUsize v.to_i64 := by
    rw [i64AsUsize, e64, n63]
    rw [e63] at hlo
    omega
  refine ⟨?_, hbig⟩
  have hgt : i64AsUsize v.to_i64 > vs.length := by omega
  simp only [instrBracket, popTop, popV_concat]
  rw [pushStackE, if_pos (by simpa using hgt)]

/-- Witness for C10: popping `Int(-1)` (wrapping to `2^64 - 1`) from a
stack of two values fails with `StackUnderflow`, keeping the other
value. -/
theorem bracket_negative_spec_witness :
    instrBracket ⟨⟨[Val.Byte 9] ++ [Val.Int (-1)], some (Val.Byte 3)⟩, []⟩ =
      (.error .StackUnderflow, ⟨⟨[Val.Byte 9], some (Val.Byte 3)⟩, []⟩) :=
  (bracket_negative_spec [Val.Byte 9] (Val.Int (-1)) (some (Val.Byte 3)) []
    (by decide) (by decide) (by norm_num)).1

end Fishr
